import Mathlib

/-!
Verification development for the federal-spending data collector
(src/data_collector.py).  The Python pipeline is shallowly embedded:

* a pandas DataFrame of normalized award records is a `List Rec`
  (only the columns that the verified properties touch are modelled:
  award_id, recipient_name, award_amount, awarding_agency; the remaining
  extracted columns are carried along by the code but never read by the
  cleaning, validation or persistence logic verified here);
* pandas row order is significant, so DataFrame operations are modelled on
  lists; where a pandas frame carries its integer index we pair each record
  with its original position (`Row := Nat × Rec`, built with List.enum);
* `df.sort_values(by, ascending=False)` runs with the default
  kind='quicksort', which pandas documents as unstable, so the program
  guarantees only that the result is some permutation of the frame sorted
  descending by the key — the relative order of rows with equal keys is not
  specified.  That guarantee is the relation `IsSortDesc`; the executable
  functions fix one admissible outcome (Mathlib's `List.insertionSort`) so
  that concrete runs can be evaluated, and every property whose truth
  depends on the order of equal keys is stated relationally, over all
  admissible outcomes;
* Python floats are modelled as rationals (the pipeline only compares,
  never rounds);
* Python str.strip is modelled by stripping ASCII whitespace.
-/

namespace FedSpend

/-! ## String helpers (Python str.strip, case-insensitive substring) -/

/-- ASCII whitespace recognised by the model of Python str.strip. -/
def pySpace (c : Char) : Bool :=
  c == ' ' || c == '\t' || c == '\n' || c == '\r' || c == '\x0b' || c == '\x0c'

/-- Model of Python str.strip(): drop leading and trailing whitespace. -/
def pyStrip (s : String) : String :=
  String.mk (((s.toList.dropWhile pySpace).reverse.dropWhile pySpace).reverse)

/-- needle occurs as a contiguous sublist of hay. -/
def subSeq (needle hay : List Char) : Bool :=
  hay.tails.any (fun t => needle.isPrefixOf t)

/-- Model of pandas Series.str.contains(needle, case=False): case-insensitive
substring test. -/
def strContainsCI (hay needle : String) : Bool :=
  subSeq (needle.toList.map Char.toLower) (hay.toList.map Char.toLower)

/-- recipient_name.str.contains('Unknown', case=False) for one value. -/
def hasUnknown (s : String) : Bool := strContainsCI s "Unknown"

/-! ## Records and rows -/

/-- One normalized award record (the columns read by the verified logic). -/
structure Rec where
  award_id : String
  recipient_name : String
  award_amount : ℚ
  awarding_agency : String
deriving DecidableEq, Repr

/-- A DataFrame row: the pandas integer index paired with the record. -/
abbrev Row := Nat × Rec

/-- award_id of a row. -/
def rid (x : Row) : String := x.2.award_id

/-- award_amount of a row. -/
def ramt (x : Row) : ℚ := x.2.award_amount

/-! ## SimpleCollector.clean_dataframe -/

/-- Step 1 of clean_dataframe:
df[df['recipient_name'].str.strip() != '']. -/
def cleanStep1 (rows : List Row) : List Row :=
  rows.filter (fun x => !(pyStrip x.2.recipient_name == ""))

/-- The row predicate of the step-2 drop:
(df['award_amount'] == 0) & (df['recipient_name'].str.contains('Unknown',
case=False, na=False)). -/
def zeroUnknown (x : Row) : Bool :=
  (x.2.award_amount == 0) && hasUnknown x.2.recipient_name

/-- negative_count > 0, the guard of the step-2 drop:
(df['award_amount'] < 0).sum() > 0. -/
def negPresent (rows : List Row) : Bool :=
  rows.any (fun x => decide (x.2.award_amount < 0))

/-- Step 2 of clean_dataframe: the zero-amount/Unknown-name drop runs only
inside the `if negative_count > 0` block of the source. -/
def cleanStep2 (rows : List Row) : List Row :=
  if negPresent rows then rows.filter (fun x => !zeroUnknown x) else rows

/-- Descending order on award_amount (ties are allowed, so this is total). -/
def rowGe (a b : Row) : Prop := ramt b ≤ ramt a

instance : DecidableRel rowGe :=
  fun a b => inferInstanceAs (Decidable (ramt b ≤ ramt a))

instance : IsTotal Row rowGe := ⟨fun a b => le_total (ramt b) (ramt a)⟩

instance : IsTrans Row rowGe := ⟨fun _ _ _ h1 h2 => le_trans h2 h1⟩

/-- The guarantee df.sort_values('award_amount', ascending=False) actually
gives: its default kind is quicksort, which pandas documents as unstable, so
the program promises only that the result is some permutation of the rows
that is sorted descending by amount.  The relative order of rows with equal
amounts is not specified. -/
def IsSortDesc (rows out : List Row) : Prop :=
  out.Perm rows ∧ out.Pairwise rowGe

/-- One admissible outcome of df.sort_values('award_amount', ascending=False),
fixed so that the embedding stays executable (isSortDesc_sortRows below shows
it satisfies IsSortDesc).  Because the sort the program runs is unstable, no
property may rely on the tie order of this particular choice: every property
whose truth depends on the order of equal amounts is stated over IsSortDesc
instead. -/
def sortRows (rows : List Row) : List Row := List.insertionSort rowGe rows

/-- df.drop_duplicates(subset=['award_id'], keep='first'): keep the first
row of each award_id, in row order. -/
def dropDupFirst : List Row → List String → List Row
  | [], _ => []
  | x :: xs, seen =>
      if rid x ∈ seen then dropDupFirst xs seen
      else x :: dropDupFirst xs (rid x :: seen)

/-- Step 3 of clean_dataframe, executable form: if duplicate award_ids
exist, sort descending by amount (the executable choice of the unstable
sort) and drop duplicates keeping the first.  cleanStep3Rel below states
this step over all admissible sort outcomes. -/
def cleanStep3 (rows : List Row) : List Row :=
  if (rows.map rid).Nodup then rows else dropDupFirst (sortRows rows) []

/-- clean_dataframe on indexed rows: the four ordered steps of the source
(step 5, reset_index, is dropping the indices, done by clean_dataframe
below). -/
def clean_rows (rows : List Row) : List Row :=
  sortRows (cleanStep3 (cleanStep2 (cleanStep1 rows)))

/-- The rows that survive the two drop rules (steps 1 and 2) and enter the
deduplication step. -/
def survivorsOf (l : List Rec) : List Row := cleanStep2 (cleanStep1 l.enum)

/-- SimpleCollector.clean_dataframe as a function on record lists: the
executable model, fixing one admissible outcome of each unstable sort. -/
def clean_dataframe (l : List Rec) : List Rec :=
  (clean_rows l.enum).map Prod.snd

/-- Step 3 of clean_dataframe, relationally: when duplicate award_ids exist
the frame is sorted descending by amount — by the unstable default sort, so
any descending permutation is admissible — and duplicates are dropped
keeping the first; otherwise the rows pass unchanged. -/
def cleanStep3Rel (rows out : List Row) : Prop :=
  if (rows.map rid).Nodup then out = rows
  else ∃ L, IsSortDesc rows L ∧ out = dropDupFirst L []

/-- One admissible run of the row pipeline of clean_dataframe: the two
deterministic drop steps, the relational deduplication step, and a final
admissible descending sort. -/
def CleanRowsRel (rows out : List Row) : Prop :=
  ∃ mid, cleanStep3Rel (cleanStep2 (cleanStep1 rows)) mid ∧ IsSortDesc mid out

/-- out is one admissible output of SimpleCollector.clean_dataframe on l:
the relation quantifies over the tie orders the unstable sorts may produce.
clean_dataframe_admissible shows the executable clean_dataframe is one
admissible output. -/
def CleanDF (l : List Rec) (out : List Rec) : Prop :=
  ∃ rowsOut, CleanRowsRel l.enum rowsOut ∧ out = rowsOut.map Prod.snd

/-! ## SimpleCollector.validate_processed_data -/

/-- Count of rows whose recipient_name strips to the empty string. -/
def blankNameCount (l : List Rec) : Nat :=
  (l.filter (fun r => pyStrip r.recipient_name == "")).length

/-- Count of rows with award_amount <= 0. -/
def nonPositiveCount (l : List Rec) : Nat :=
  (l.filter (fun r => decide (r.award_amount ≤ 0))).length

/-- Count of rows with award_amount > 1e12. -/
def hugeAmountCount (l : List Rec) : Nat :=
  (l.filter (fun r => decide ((1000000000000 : ℚ) < r.award_amount))).length

/-- Count of rows whose awarding_agency strips to the empty string. -/
def blankAgencyCount (l : List Rec) : Nat :=
  (l.filter (fun r => pyStrip r.awarding_agency == "")).length

/-- df.duplicated(subset=['award_id']).sum(): occurrences beyond the first
of each award_id, i.e. row count minus the number of distinct ids. -/
def dupIdCount (l : List Rec) : Nat :=
  l.length - (l.map (fun r => r.award_id)).dedup.length

/-- SimpleCollector.validate_processed_data.  The required columns are part
of the fixed schema of `Rec`, so the missing-column failure path cannot
arise in the model.  The float threshold comparison
critical_issues > total_records * 0.1 coincides with the exact rational
comparison 10 * critical_issues > total_records at every integer, hence the
integer formulation below. -/
def validate_processed_data (l : List Rec) : Bool :=
  if l.isEmpty then false
  else if 0 < blankNameCount l ∨ 0 < nonPositiveCount l ∨ 0 < hugeAmountCount l
        ∨ 0 < blankAgencyCount l ∨ 0 < dupIdCount l then
    if l.length < 10 * (blankNameCount l + dupIdCount l) then false else true
  else true

/-! ## process_to_dataframe: safe_extract and per-record extraction

A raw API record is a loosely typed key/value map.  The Python values that
reach safe_extract through response.json() and are exercised by the
verified properties are null, strings and numbers; they are modelled by
`PyVal`.  Python floats are modelled as rationals.  str(number) rendering
is abstracted by the rational's toString (no verified property reads it);
float()/int() accept surrounding whitespace, an optional sign and decimal
digits in the model — the exotic forms Python additionally accepts
(exponents, inf, nan, underscores) are not modelled, and a string the model
cannot parse takes the conversion-failure path. -/

/-- A raw Python value held in an API record. -/
inductive PyVal
  | vnone
  | vstr (s : String)
  | vnum (q : ℚ)
deriving DecidableEq, Repr

/-- A raw API record: item in process_to_dataframe. -/
abbrev RawRec := List (String × PyVal)

/-- item.get(field_name): first binding of the key, if any. -/
def lookupRaw (item : RawRec) (k : String) : Option PyVal :=
  (item.find? (fun p => p.1 == k)).map (fun p => p.2)

/-- Python str() on a raw value. -/
def pyStr : PyVal → String
  | .vnone => "None"
  | .vstr s => s
  | .vnum q => toString q

/-- Digit value of a decimal digit character. -/
def digitVal (c : Char) : Nat := c.toNat - '0'.toNat

/-- The natural number denoted by a list of decimal digits. -/
def natOfDigits (cs : List Char) : Nat :=
  cs.foldl (fun n c => 10 * n + digitVal c) 0

/-- The rational denoted by integer part ip, fractional digits worth fp,
and k fractional digits. -/
def decValue (ip fp k : Nat) : ℚ := (ip : ℚ) + (fp : ℚ) / (10 : ℚ) ^ k

/-- Unsigned decimal literal: digits, optionally followed by a point and
more digits, at least one digit in total (Python accepts "1." and ".5"). -/
def parseUnsignedDec (cs : List Char) : Option ℚ :=
  let ip := cs.takeWhile Char.isDigit
  let rest := cs.dropWhile Char.isDigit
  match rest with
  | [] => if ip.isEmpty then none else some ((natOfDigits ip : ℚ))
  | '.' :: fp =>
      if fp.all Char.isDigit && !(ip.isEmpty && fp.isEmpty) then
        some (decValue (natOfDigits ip) (natOfDigits fp) fp.length)
      else none
  | _ => none

/-- Python float(s) on a string: optional sign around an unsigned decimal,
surrounding whitespace ignored. -/
def pyFloatOfString (s : String) : Option ℚ :=
  match (pyStrip s).toList with
  | '-' :: cs => (parseUnsignedDec cs).map (fun q => -q)
  | '+' :: cs => parseUnsignedDec cs
  | cs => parseUnsignedDec cs

/-- Python int(s) on a string: optional sign and decimal digits only. -/
def pyIntOfString (s : String) : Option ℤ :=
  match (pyStrip s).toList with
  | '-' :: cs =>
      if !cs.isEmpty && cs.all Char.isDigit then some (-(natOfDigits cs : ℤ)) else none
  | '+' :: cs =>
      if !cs.isEmpty && cs.all Char.isDigit then some ((natOfDigits cs : ℤ)) else none
  | cs =>
      if !cs.isEmpty && cs.all Char.isDigit then some ((natOfDigits cs : ℤ)) else none

/-- Python float(value): numbers pass through, strings are parsed,
None raises (treated as a conversion failure by the caller). -/
def pyFloat : PyVal → Option ℚ
  | .vnum q => some q
  | .vstr s => pyFloatOfString s
  | .vnone => none

/-- Truncation toward zero, as Python int() applied to a float. -/
def ratTrunc (q : ℚ) : ℤ := if 0 ≤ q then ⌊q⌋ else ⌈q⌉

/-- Python int(value). -/
def pyInt : PyVal → Option ℤ
  | .vnum q => some (ratTrunc q)
  | .vstr s => pyIntOfString s
  | .vnone => none

/-- The convert_type argument of safe_extract. -/
inductive CType
  | cstr
  | cfloat
  | cint
  | cother
deriving DecidableEq, Repr

/-- The conversion part of safe_extract, applied once the value passed the
missing/None/empty guard.  The Bool records whether the conversion raised
(the except branch of the source): in that case the fallback is returned.
A "null" string converts to 0 in the numeric branches of the source. -/
def convertVal (value fb : PyVal) : CType → PyVal × Bool
  | .cstr => (.vstr (pyStrip (pyStr value)), false)
  | .cfloat =>
      if value == PyVal.vstr "null" then (.vnum 0, false)
      else
        match pyFloat value with
        | some q => (.vnum q, false)
        | none => (fb, true)
  | .cint =>
      if value == PyVal.vstr "null" then (.vnum 0, false)
      else
        match pyInt value with
        | some z => (.vnum (z : ℚ), false)
        | none => (fb, true)
  | .cother => (value, false)

/-- safe_extract from process_to_dataframe.  The second component is the
update to the per-run field_errors tally: the field name when the
conversion raised, nothing otherwise. -/
def safe_extract (item : RawRec) (field : String) (fb : PyVal) (ct : CType) :
    PyVal × List String :=
  let value := (lookupRaw item field).getD fb
  if value = PyVal.vnone ∨ value = PyVal.vstr "" then (fb, [])
  else
    let c := convertVal value fb ct
    (c.1, if c.2 then [field] else [])

/-- A fallback that safe_extract hands back unchanged when the field is
missing: either the guard returns it directly, or converting it is the
identity.  Every fallback declared at the call sites of the source
satisfies this. -/
def fbStable (fb : PyVal) (ct : CType) : Bool :=
  fb == PyVal.vnone || fb == PyVal.vstr "" || convertVal fb fb ct == (fb, false)

/-- String content of an extracted value. -/
def asStr (v : PyVal) : String := pyStr v

/-- Numeric content of an extracted value (the float branches always yield
a number). -/
def asQ : PyVal → ℚ
  | .vnum q => q
  | _ => 0

/-- The per-record body of process_to_dataframe restricted to the modelled
columns: extract the fields, then keep the record only if both essential
identity fields are non-empty and differ from their sentinel fallbacks.
The List String component is the field_errors tally contribution. -/
def process_record (i : Nat) (item : RawRec) : Option Rec × List String :=
  let amt := safe_extract item "Award Amount" (.vnum 0) .cfloat
  let aid := safe_extract item "Award ID" (.vstr ("UNKNOWN_ID_" ++ toString (i + 1))) .cstr
  let rnm := safe_extract item "Recipient Name" (.vstr "Unknown Recipient") .cstr
  let agy := safe_extract item "Awarding Agency" (.vstr "Unknown Agency") .cstr
  let errs := amt.2 ++ aid.2 ++ rnm.2 ++ agy.2
  let r : Rec := ⟨asStr aid.1, asStr rnm.1, asQ amt.1, asStr agy.1⟩
  let essential :=
    r.award_id ≠ "" ∧ r.award_id ≠ "UNKNOWN_ID_" ++ toString (i + 1) ∧
    r.award_id ≠ "Unknown Recipient" ∧
    r.recipient_name ≠ "" ∧ r.recipient_name ≠ "UNKNOWN_ID_" ++ toString (i + 1) ∧
    r.recipient_name ≠ "Unknown Recipient"
  (if essential then some r else none, errs)

/-! ## SimpleCollector.validate_api_response

The raw API response is whatever response.json() produced: arbitrary JSON,
modelled by `JVal`.  Python's containment test field in x is total on
mappings (key test), sequences (element equality with a string) and
strings (substring test), and raises TypeError on null, booleans and
numbers; validate_api_response performs it on the first element of
"results" without catching, so the model returns in the Except monad. -/

/-- A JSON value as produced by response.json(). -/
inductive JVal
  | jnull
  | jbool (b : Bool)
  | jnum (q : ℚ)
  | jstr (s : String)
  | jarr (xs : List JVal)
  | jobj (kvs : List (String × JVal))

/-- Key lookup in a JSON object. -/
def jLookup (kvs : List (String × JVal)) (k : String) : Option JVal :=
  (kvs.find? (fun p => p.1 == k)).map (fun p => p.2)

/-- Case-sensitive substring test (Python needle in hay for strings). -/
def pySubstr (needle hay : String) : Bool := subSeq needle.toList hay.toList

/-- Python s in v.  Raises TypeError (as .error) when v supports no
containment test. -/
def pyInJ (s : String) (v : JVal) : Except String Bool :=
  match v with
  | .jobj kvs => .ok (kvs.any (fun p => p.1 == s))
  | .jarr xs => .ok (xs.any (fun y => match y with | .jstr t => t == s | _ => false))
  | .jstr t => .ok (pySubstr s t)
  | _ => .error "TypeError"

/-- The basic_fields list of validate_api_response. -/
def basicFields : List String := ["Award ID", "Recipient Name", "Award Amount"]

/-- The part of validate_api_response from the "results" lookup onward:
a missing key or non-list value fails, an empty list is accepted, and a
non-empty list has its first record checked for the basic fields in order,
the first raising containment test propagating (the source performs the
three Python in tests in a loop with no except around them). -/
def validateResults (res : Option JVal) : Except String Bool :=
  match res with
  | some (.jarr []) => .ok true
  | some (.jarr (x :: _)) =>
      match pyInJ "Award ID" x with
      | .error e => .error e
      | .ok b1 =>
          match pyInJ "Recipient Name" x with
          | .error e => .error e
          | .ok b2 =>
              match pyInJ "Award Amount" x with
              | .error e => .error e
              | .ok b3 => .ok (b1 || b2 || b3)
  | some _ => .ok false
  | none => .ok false

/-- SimpleCollector.validate_api_response. -/
def validate_api_response (resp : JVal) : Except String Bool :=
  match resp with
  | .jobj kvs => validateResults (jLookup kvs "results")
  | _ => .ok false

/-- The natural reading of "the first element contains the field name":
key of a mapping, element of a sequence, substring of a string; nothing
else contains anything. -/
def jContainsName (x : JVal) (f : String) : Bool :=
  match x with
  | .jobj kvs => kvs.any (fun p => p.1 == f)
  | .jarr xs => xs.any (fun y => match y with | .jstr t => t == f | _ => false)
  | .jstr t => pySubstr f t
  | _ => false

/-! ## SimpleCollector.fetch_spending_data_with_pagination

The network is an oracle mapping (page, limit) to the outcome of
fetch_spending_data_with_page for that request: none models every failure
that function absorbs into a None return (timeout, connection error,
non-200 status, response-validation failure), and some rs models a
validated response whose results list is rs.  The loop body treats a None
batch and an empty results list identically (the else branch that
continues with the next page).  The inter-request sleep has no observable
effect in the model. -/

/-- One run of the pagination for-loop.  fuel is the number of loop
iterations left (initially total_requests), reqNum the current request_num,
acc the all_results accumulator.  Returns the list of issued requests as
(page, limit) pairs in order, and the final accumulator. -/
def fetchGo {α : Type} (oracle : Nat → Nat → Option (List α)) (totalLimit : Nat) :
    Nat → Nat → List α → List (Nat × Nat) × List α
  | 0, _, acc => ([], acc)
  | fuel + 1, reqNum, acc =>
      let curLimit : Int := min 100 ((totalLimit : Int) - acc.length)
      if curLimit ≤ 0 then ([], acc)
      else
        let page := reqNum + 1
        let lim := curLimit.toNat
        match oracle page lim with
        | some rs =>
            if rs.isEmpty then
              let rest := fetchGo oracle totalLimit fuel (reqNum + 1) acc
              ((page, lim) :: rest.1, rest.2)
            else if rs.length < lim then ([(page, lim)], acc ++ rs)
            else
              let rest := fetchGo oracle totalLimit fuel (reqNum + 1) (acc ++ rs)
              ((page, lim) :: rest.1, rest.2)
        | none =>
            let rest := fetchGo oracle totalLimit fuel (reqNum + 1) acc
            ((page, lim) :: rest.1, rest.2)

/-- SimpleCollector.fetch_spending_data_with_pagination: issues
total_requests = ceil(total_limit / 100) loop iterations and returns the
issued requests together with the accumulated records (none when nothing
at all was collected, matching the None return of the source). -/
def fetch_spending_data_with_pagination {α : Type}
    (oracle : Nat → Nat → Option (List α)) (totalLimit : Nat) :
    List (Nat × Nat) × Option (List α) :=
  let r := fetchGo oracle totalLimit ((totalLimit + 99) / 100) 0 []
  (r.1, if r.2.isEmpty then none else some r.2)

/-! ## SimpleCollector.save_data and check_file_integrity

File-system effects are abstracted into an environment: each write either
succeeds or raises, and each written file has a state that the re-read
integrity check inspects.  validate_saved_files (the final sweep over the
timestamped files) is likewise an environment outcome. -/

/-- The observable state of one just-written file, as seen by
check_file_integrity when it re-reads the file. -/
structure FileState where
  fileExists : Bool
  size : Nat
  parseOk : Bool
  csvEmpty : Bool
  csvRows : Nat
  csvCols : Nat
  jsonTruthy : Bool
  jsonRecords : Nat
deriving DecidableEq, Repr

/-- File kind, decided in the source by the filename extension. -/
inductive FileKind
  | csvK
  | jsonK
  | otherK
deriving DecidableEq, Repr

/-- SimpleCollector.check_file_integrity.  The exception message of the
source's except branch is abstracted to a fixed string. -/
def check_file_integrity (kind : FileKind) (fs : FileState) : Bool × String :=
  if !fs.fileExists then (false, "File does not exist")
  else if fs.size == 0 then (false, "File is empty")
  else
    match kind with
    | .csvK =>
        if !fs.parseOk then (false, "File integrity check failed")
        else if fs.csvEmpty then (false, "CSV contains no data")
        else (true, "Valid CSV with " ++ toString fs.csvRows ++ " rows, "
                      ++ toString fs.csvCols ++ " columns")
    | .jsonK =>
        if !fs.parseOk then (false, "File integrity check failed")
        else if !fs.jsonTruthy then (false, "JSON contains no data")
        else (true, "Valid JSON with " ++ toString fs.jsonRecords ++ " records")
    | .otherK => (true, "File exists and is readable")

/-- The environment a save_data run interacts with. -/
structure SaveEnv where
  storageOk : Bool
  csvWriteOk : Bool
  csvTs : FileState
  latestCsvWriteOk : Bool
  csvLatest : FileState
  jsonWriteOk : Bool
  jsonTs : FileState
  latestJsonWriteOk : Bool
  jsonLatest : FileState
  finalValidationOk : Bool
deriving DecidableEq, Repr

/-- What a save_data run returns and did: its boolean result, the
saved_files list it accumulated (the source appends only the two
timestamped paths), and whether the backup copy/rotation step
(create_backup_versions) was reached. -/
structure SaveResult where
  ok : Bool
  savedFiles : List String
  backupRan : Bool
deriving DecidableEq, Repr

/-- save_format in ['csv', 'both']. -/
def csvSelected (fmt : String) : Bool := fmt == "csv" || fmt == "both"

/-- save_format in ['json', 'both']. -/
def jsonSelected (fmt : String) : Bool := fmt == "json" || fmt == "both"

/-- The saved_files list after the CSV section (the source appends only
the timestamped paths). -/
def savedAfterCsv (fmt : String) : List String :=
  if csvSelected fmt then ["spending_data_useful_TIMESTAMP.csv"] else []

/-- The saved_files list after both sections. -/
def savedAfterJson (fmt : String) : List String :=
  savedAfterCsv fmt
    ++ if jsonSelected fmt then ["spending_data_useful_TIMESTAMP.json"] else []

/-- SimpleCollector.save_data.  Each early return False of the source is a
⟨false, _, false⟩ result; create_backup_versions runs only after both
format sections completed, and validate_saved_files then decides the final
result. -/
def save_data (df : List Rec) (fmt : String) (env : SaveEnv) : SaveResult :=
  if df.isEmpty then ⟨false, [], false⟩
  else if !env.storageOk then ⟨false, [], false⟩
  else if csvSelected fmt && !env.csvWriteOk then ⟨false, [], false⟩
  else if csvSelected fmt && !(check_file_integrity .csvK env.csvTs).1 then
    ⟨false, savedAfterCsv fmt, false⟩
  else if csvSelected fmt && !env.latestCsvWriteOk then ⟨false, savedAfterCsv fmt, false⟩
  else if csvSelected fmt && !(check_file_integrity .csvK env.csvLatest).1 then
    ⟨false, savedAfterCsv fmt, false⟩
  else if jsonSelected fmt && !env.jsonWriteOk then ⟨false, savedAfterCsv fmt, false⟩
  else if jsonSelected fmt && !(check_file_integrity .jsonK env.jsonTs).1 then
    ⟨false, savedAfterJson fmt, false⟩
  else if jsonSelected fmt && !env.latestJsonWriteOk then ⟨false, savedAfterJson fmt, false⟩
  else if jsonSelected fmt && !(check_file_integrity .jsonK env.jsonLatest).1 then
    ⟨false, savedAfterJson fmt, false⟩
  else ⟨env.finalValidationOk, savedAfterJson fmt, true⟩

/-- All integrity checks that the chosen format performs succeed. -/
def integrityAllOk (fmt : String) (env : SaveEnv) : Bool :=
  (!csvSelected fmt
      || ((check_file_integrity .csvK env.csvTs).1
            && (check_file_integrity .csvK env.csvLatest).1))
    && (!jsonSelected fmt
      || ((check_file_integrity .jsonK env.jsonTs).1
            && (check_file_integrity .jsonK env.jsonLatest).1))

/-! ## Concrete inputs used by counterexamples and witnesses -/

/-- A zero-amount record whose recipient name contains "Unknown". -/
def rUnknownZero : Rec := ⟨"A1", "Unknown Recipient", 0, "Ag"⟩

/-- A record with a negative amount. -/
def rNegative : Rec := ⟨"N1", "Negative Corp", -5, "Ag"⟩

/-- A zero-amount record with an ordinary recipient name. -/
def rBobZero : Rec := ⟨"B1", "Bob", 0, "Ag"⟩

/-- A table holding a negative-amount record and a zero-amount record with
an ordinary name. -/
def dfNegZero : List Rec := [rNegative, rBobZero]

/-- A duplicate-id group whose higher-amount row has a blank name. -/
def dfDupBlankMax : List Rec := [⟨"A", "", 100, "Ag"⟩, ⟨"A", "Bob", 50, "Ag"⟩]

/-- A duplicate-id group with an exact amount tie. -/
def dfTie : List Rec := [⟨"X", "a", 7, "Ag"⟩, ⟨"X", "b", 7, "Ag"⟩]

/-- The first (index 0) row of dfTie. -/
def xTie : Row := (0, ⟨"X", "a", 7, "Ag"⟩)

/-- Two records with distinct award ids and equal amounts: a tie for the
final descending sort, whose order an unstable sort need not preserve. -/
def dfTwoTied : List Rec := [⟨"TA", "a", 5, "Ag"⟩, ⟨"TB", "b", 5, "Ag"⟩]

/-- An ordinary valid record. -/
def sampleRec : Rec := ⟨"S1", "Sample Corp", 5, "Ag"⟩

/-- Twenty records of which three (15 percent) have blank recipient
names. -/
def scenario15 : List Rec :=
  (List.range 20).map (fun i =>
    ⟨"ID" ++ toString i, if i < 3 then "" else "R" ++ toString i, 10, "Ag"⟩)

/-- A response whose first result record has an expected field. -/
def respOkFirst : JVal :=
  JVal.jobj [("results", JVal.jarr [JVal.jobj [("Award ID", JVal.jstr "x")]])]

/-- An oracle on which every page request fails. -/
def noDataOracle : Nat → Nat → Option (List Nat) := fun _ _ => none

/-- An oracle returning exactly as many records as each request asks. -/
def fullRangeOracle : Nat → Nat → Option (List Nat) := fun _ l => some (List.range l)

/-- A file state that passes every integrity check. -/
def fileGood : FileState := ⟨true, 10, true, false, 5, 4, true, 5⟩

/-- A file state whose re-read raises, failing the integrity check. -/
def fileBadParse : FileState := ⟨true, 10, false, false, 5, 4, true, 5⟩

/-- An environment in which every step succeeds. -/
def envAllGood : SaveEnv :=
  ⟨true, true, fileGood, true, fileGood, true, fileGood, true, fileGood, true⟩

/-- An environment in which the timestamped JSON file fails its integrity
check. -/
def envBadJsonTs : SaveEnv :=
  ⟨true, true, fileGood, true, fileGood, true, fileBadParse, true, fileGood, true⟩

/-- The raw record of the extraction scenario. -/
def rawX1 : RawRec :=
  [("Award ID", PyVal.vstr "X1"), ("Recipient Name", PyVal.vstr "Acme"),
   ("Award Amount", PyVal.vstr "1000.50")]

/-- The record the extraction scenario must produce. -/
def recX1 : Rec := ⟨"X1", "Acme", decValue 1000 50 2, "Unknown Agency"⟩

/-! ## Helper lemmas: drop-duplicates -/

theorem ddf_subset {x : Row} : ∀ (l : List Row) (seen : List String),
    x ∈ dropDupFirst l seen → x ∈ l := by
  intro l
  induction l with
  | nil => intro seen h; simp [dropDupFirst] at h
  | cons y ys ih =>
      intro seen h
      by_cases hy : rid y ∈ seen
      · simp only [dropDupFirst, if_pos hy] at h
        exact List.mem_cons_of_mem y (ih _ h)
      · simp only [dropDupFirst, if_neg hy] at h
        rcases List.mem_cons.mp h with h | h
        · simp [h]
        · exact List.mem_cons_of_mem y (ih _ h)

theorem ddf_not_seen {x : Row} : ∀ (l : List Row) (seen : List String),
    x ∈ dropDupFirst l seen → rid x ∉ seen := by
  intro l
  induction l with
  | nil => intro seen h; simp [dropDupFirst] at h
  | cons y ys ih =>
      intro seen h
      by_cases hy : rid y ∈ seen
      · simp only [dropDupFirst, if_pos hy] at h
        exact ih _ h
      · simp only [dropDupFirst, if_neg hy] at h
        rcases List.mem_cons.mp h with h | h
        · subst h; exact hy
        · intro hmem
          exact ih _ h (List.mem_cons_of_mem _ hmem)

theorem ddf_ids_nodup : ∀ (l : List Row) (seen : List String),
    ((dropDupFirst l seen).map rid).Nodup := by
  intro l
  induction l with
  | nil => intro seen; simp [dropDupFirst]
  | cons y ys ih =>
      intro seen
      by_cases hy : rid y ∈ seen
      · simpa only [dropDupFirst, if_pos hy] using ih seen
      · simp only [dropDupFirst, if_neg hy, List.map_cons, List.nodup_cons]
        refine ⟨?_, ih _⟩
        intro hmem
        rcases List.mem_map.mp hmem with ⟨z, hz, hzr⟩
        exact ddf_not_seen _ _ hz (hzr ▸ List.mem_cons_self _ _)

theorem ddf_first_decomp {x : Row} : ∀ (l : List Row) (seen : List String),
    x ∈ dropDupFirst l seen →
    ∃ l1 l2, l = l1 ++ x :: l2 ∧ ∀ s ∈ l1, rid s ≠ rid x := by
  intro l
  induction l with
  | nil => intro seen h; simp [dropDupFirst] at h
  | cons y ys ih =>
      intro seen h
      by_cases hy : rid y ∈ seen
      · simp only [dropDupFirst, if_pos hy] at h
        rcases ih _ h with ⟨l1, l2, hdec, hfree⟩
        have hxs : rid x ∉ seen := ddf_not_seen _ _ h
        refine ⟨y :: l1, l2, by simp [hdec], ?_⟩
        intro s hs
        rcases List.mem_cons.mp hs with hs | hs
        · subst hs; intro hc; exact hxs (hc ▸ hy)
        · exact hfree s hs
      · simp only [dropDupFirst, if_neg hy] at h
        rcases List.mem_cons.mp h with h | h
        · exact ⟨[], ys, by simp [h], by simp⟩
        · rcases ih _ h with ⟨l1, l2, hdec, hfree⟩
          have hxs : rid x ∉ rid y :: seen := ddf_not_seen _ _ h
          refine ⟨y :: l1, l2, by simp [hdec], ?_⟩
          intro s hs
          rcases List.mem_cons.mp hs with hs | hs
          · subst hs
            intro hc
            exact hxs (hc ▸ List.mem_cons_self _ _)
          · exact hfree s hs

theorem ddf_mem_of_unique {x : Row} : ∀ (l : List Row) (seen : List String),
    x ∈ l → rid x ∉ seen → (∀ y ∈ l, rid y = rid x → y = x) →
    x ∈ dropDupFirst l seen := by
  intro l
  induction l with
  | nil => intro seen h; simp at h
  | cons y ys ih =>
      intro seen hx hseen huniq
      by_cases hy : rid y ∈ seen
      · simp only [dropDupFirst, if_pos hy]
        rcases List.mem_cons.mp hx with hx | hx
        · exact absurd (hx ▸ hy) hseen
        · refine ih _ hx hseen ?_
          intro z hz hr
          exact huniq z (List.mem_cons_of_mem y hz) hr
      · simp only [dropDupFirst, if_neg hy]
        rcases List.mem_cons.mp hx with hx | hx
        · exact hx ▸ List.mem_cons_self _ _
        · by_cases hxy : x = y
          · exact hxy ▸ List.mem_cons_self _ _
          · have hry : rid y ≠ rid x := by
              intro hr
              exact hxy ((huniq y (List.mem_cons_self _ _) hr).symm)
            refine List.mem_cons_of_mem _ (ih _ hx ?_ ?_)
            · intro hc
              rcases List.mem_cons.mp hc with hc | hc
              · exact hry hc.symm
              · exact hseen hc
            · intro z hz hr
              exact huniq z (List.mem_cons_of_mem y hz) hr

theorem ddf_covers {s : Row} : ∀ (l : List Row) (seen : List String),
    s ∈ l → rid s ∉ seen → ∃ x ∈ dropDupFirst l seen, rid x = rid s := by
  intro l
  induction l with
  | nil => intro seen h; simp at h
  | cons y ys ih =>
      intro seen hs hseen
      by_cases hy : rid y ∈ seen
      · simp only [dropDupFirst, if_pos hy]
        rcases List.mem_cons.mp hs with hs | hs
        · exact absurd (hs ▸ hy) hseen
        · exact ih _ hs hseen
      · simp only [dropDupFirst, if_neg hy]
        by_cases hr : rid s = rid y
        · exact ⟨y, List.mem_cons_self _ _, hr.symm⟩
        · rcases List.mem_cons.mp hs with hs | hs
          · exact absurd (congrArg rid hs) hr
          · have hns : rid s ∉ rid y :: seen := by
              intro hc
              rcases List.mem_cons.mp hc with hc | hc
              · exact hr hc
              · exact hseen hc
            rcases ih (rid y :: seen) hs hns with ⟨x, hx, hxr⟩
            exact ⟨x, List.mem_cons_of_mem _ hx, hxr⟩

theorem mem_of_length_one {α : Type} {xs : List α} {a b : α}
    (h : xs.length = 1) (ha : a ∈ xs) (hb : b ∈ xs) : a = b := by
  match xs, h with
  | [c], _ =>
      rcases List.mem_singleton.mp ha with rfl
      exact (List.mem_singleton.mp hb).symm

/-! ## Helper lemmas: the cleaning pipeline -/

theorem mem_cleanStep1_subset {x : Row} {rows : List Row} (h : x ∈ cleanStep1 rows) :
    x ∈ rows :=
  List.mem_of_mem_filter h

theorem mem_cleanStep2_subset {x : Row} {rows : List Row} (h : x ∈ cleanStep2 rows) :
    x ∈ rows := by
  unfold cleanStep2 at h
  split at h
  · exact List.mem_of_mem_filter h
  · exact h

theorem mem_clean_rows_subset {x : Row} {rows : List Row} (h : x ∈ clean_rows rows) :
    x ∈ cleanStep2 (cleanStep1 rows) := by
  unfold clean_rows at h
  have h1 : x ∈ cleanStep3 (cleanStep2 (cleanStep1 rows)) :=
    (List.perm_insertionSort rowGe _).mem_iff.mp h
  unfold cleanStep3 at h1
  split at h1
  · exact h1
  · exact (List.perm_insertionSort rowGe _).mem_iff.mp (ddf_subset _ _ h1)

theorem zeroUnknown_eq_of_snd {x y : Row} (h : x.2 = y.2) :
    zeroUnknown x = zeroUnknown y := by
  simp [zeroUnknown, h]

theorem negPresent_of_mem {rows : List Row} {x : Row} (hx : x ∈ rows)
    (h : x.2.award_amount < 0) : negPresent rows = true :=
  List.any_eq_true.mpr ⟨x, hx, decide_eq_true h⟩

theorem clean_rows_no_zero_unknown {rows : List Row}
    (hneg : negPresent (cleanStep1 rows) = true) {x : Row} (hx : x ∈ clean_rows rows) :
    zeroUnknown x = false := by
  have h2 : x ∈ cleanStep2 (cleanStep1 rows) := mem_clean_rows_subset hx
  unfold cleanStep2 at h2
  rw [if_pos hneg] at h2
  simpa using List.of_mem_filter h2

theorem enumFrom_filter_snd_length (p : Rec → Bool) : ∀ (l : List Rec) (n : Nat),
    ((List.enumFrom n l).filter (fun x => p x.2)).length = (l.filter p).length := by
  intro l
  induction l with
  | nil => intro n; simp
  | cons a as ih =>
      intro n
      rw [List.enumFrom_cons]
      by_cases hp : p a
      · simp [List.filter_cons, hp, ih]
      · simp [List.filter_cons, hp, ih]

theorem row_unique_of_filter_one {l : List Rec} {x : Row} (hx : x ∈ l.enum)
    (huniq : (l.filter (fun s => s.award_id == x.2.award_id)).length = 1) :
    ∀ y ∈ l.enum, rid y = rid x → y = x := by
  intro y hy hr
  have henum : l.enum = List.enumFrom 0 l := rfl
  have hlen :
      ((l.enum).filter (fun z => z.2.award_id == x.2.award_id)).length = 1 := by
    rw [henum]
    exact (enumFrom_filter_snd_length (fun s => s.award_id == x.2.award_id) l 0).trans huniq
  have hx' : x ∈ (l.enum).filter (fun z => z.2.award_id == x.2.award_id) :=
    List.mem_filter.mpr ⟨hx, by simp⟩
  have hy' : y ∈ (l.enum).filter (fun z => z.2.award_id == x.2.award_id) :=
    List.mem_filter.mpr ⟨hy, by simp [show y.2.award_id = x.2.award_id from hr]⟩
  exact mem_of_length_one hlen hy' hx'

/-! ## Helper lemmas: admissible runs of the unstable sorts -/

theorem isSortDesc_sortRows (rows : List Row) : IsSortDesc rows (sortRows rows) :=
  ⟨List.perm_insertionSort rowGe rows, List.sorted_insertionSort rowGe rows⟩

theorem cleanStep3Rel_self (rows : List Row) : cleanStep3Rel rows (cleanStep3 rows) := by
  unfold cleanStep3Rel
  split
  case isTrue hnd =>
    unfold cleanStep3
    rw [if_pos hnd]
  case isFalse hnd =>
    refine ⟨sortRows rows, isSortDesc_sortRows rows, ?_⟩
    unfold cleanStep3
    rw [if_neg hnd]

theorem cleanRowsRel_self (rows : List Row) : CleanRowsRel rows (clean_rows rows) :=
  ⟨cleanStep3 (cleanStep2 (cleanStep1 rows)), cleanStep3Rel_self _,
    isSortDesc_sortRows _⟩

theorem clean_dataframe_admissible (l : List Rec) : CleanDF l (clean_dataframe l) :=
  ⟨clean_rows l.enum, cleanRowsRel_self l.enum, rfl⟩

theorem cleanStep3Rel_subset {rows mid : List Row} (h : cleanStep3Rel rows mid) :
    ∀ x ∈ mid, x ∈ rows := by
  unfold cleanStep3Rel at h
  split at h
  · intro x hx
    rw [h] at hx
    exact hx
  · obtain ⟨L, ⟨hp, _⟩, hmid⟩ := h
    intro x hx
    rw [hmid] at hx
    exact hp.mem_iff.mp (ddf_subset _ _ hx)

theorem cleanStep3Rel_ids_nodup {rows mid : List Row} (h : cleanStep3Rel rows mid) :
    (mid.map rid).Nodup := by
  unfold cleanStep3Rel at h
  split at h
  case isTrue hnd =>
    rw [h]
    exact hnd
  case isFalse hnd =>
    obtain ⟨L, _, hmid⟩ := h
    rw [hmid]
    exact ddf_ids_nodup L []

theorem cleanRowsRel_props {rows out : List Row} (h : CleanRowsRel rows out) :
    (∀ x ∈ out, x ∈ cleanStep2 (cleanStep1 rows))
    ∧ (out.map rid).Nodup
    ∧ out.Pairwise rowGe := by
  obtain ⟨mid, h3, hperm, hsort⟩ := h
  refine ⟨?_, ((hperm.map rid).nodup_iff).mpr (cleanStep3Rel_ids_nodup h3), hsort⟩
  intro x hx
  exact cleanStep3Rel_subset h3 x (hperm.mem_iff.mp hx)

theorem mem_cleanStep2_zeroUnknown {rows : List Row}
    (hneg : negPresent (cleanStep1 rows) = true) {z : Row}
    (hz : z ∈ cleanStep2 (cleanStep1 rows)) : zeroUnknown z = false := by
  unfold cleanStep2 at hz
  rw [if_pos hneg] at hz
  simpa using List.of_mem_filter hz

theorem pairwise_lt_of_le_nodup {m : List Rec}
    (hle : m.Pairwise (fun a b => b.award_amount ≤ a.award_amount))
    (hnd : (m.map (fun r => r.award_amount)).Nodup) :
    m.Pairwise (fun a b => b.award_amount < a.award_amount) := by
  have hne0 : (m.map (fun r => r.award_amount)).Pairwise (fun a b => a ≠ b) := hnd
  have hne : m.Pairwise (fun a b => a.award_amount ≠ b.award_amount) :=
    List.pairwise_map.mp hne0
  exact (hle.and hne).imp (fun hab => lt_of_le_of_ne hab.1 (Ne.symm hab.2))

/-! ## Claim C1 -/

/-- C1, counterexample: a single-record table whose record has amount
exactly 0 and a recipient name containing "Unknown" passes clean_dataframe
unchanged, because the zero-amount/Unknown drop is guarded by the presence
of a negative amount; so the Cleaner does not drop every such record
regardless of the other records in the table. -/
theorem c1_counterexample :
    clean_dataframe [rUnknownZero] = [rUnknownZero]
    ∧ rUnknownZero.award_amount = 0
    ∧ hasUnknown rUnknownZero.recipient_name = true := by decide

/-- C1, amended: when the table (after the blank-name drop) contains at
least one negative amount, clean_dataframe drops every record with amount
exactly 0 and an "Unknown"-containing recipient name (case-insensitive);
otherwise such records are kept.  Records with zero amount but a
non-"Unknown" name are never dropped by that rule — they survive whenever
their name is non-blank and no other record shares their award_id. -/
theorem c1_amended (l : List Rec) (r : Rec) :
    (negPresent (cleanStep1 l.enum) = true →
      ∀ s ∈ clean_dataframe l, ¬(s.award_amount = 0 ∧ hasUnknown s.recipient_name = true))
    ∧ (r ∈ l → pyStrip r.recipient_name ≠ "" → r.award_amount = 0 →
        hasUnknown r.recipient_name = false →
        (l.filter (fun s => s.award_id == r.award_id)).length = 1 →
        r ∈ clean_dataframe l) := by
  constructor
  · intro hneg s hs hcontra
    rcases List.mem_map.mp hs with ⟨x, hx, hxs⟩
    have hz := clean_rows_no_zero_unknown hneg hx
    rcases hcontra with ⟨h0, hu⟩
    rw [zeroUnknown, hxs, h0, hu] at hz
    simp at hz
  · intro hmem hname hzero hunk huniq
    have hmem' : r ∈ (l.enum).map Prod.snd := by
      rw [List.enum_map_snd]
      exact hmem
    rcases List.mem_map.mp hmem' with ⟨x, hx, hxs⟩
    have h1 : x ∈ cleanStep1 l.enum :=
      List.mem_filter.mpr ⟨hx, by simp [hxs, hname]⟩
    have hzu : zeroUnknown x = false := by
      simp [zeroUnknown, hxs, hunk]
    have h2 : x ∈ cleanStep2 (cleanStep1 l.enum) := by
      unfold cleanStep2
      split
      · exact List.mem_filter.mpr ⟨h1, by simp [hzu]⟩
      · exact h1
    have huniqRow : ∀ y ∈ l.enum, rid y = rid x → y = x :=
      row_unique_of_filter_one hx (by rw [hxs]; exact huniq)
    have hstep3 : x ∈ cleanStep3 (cleanStep2 (cleanStep1 l.enum)) := by
      unfold cleanStep3
      split
      · exact h2
      · refine ddf_mem_of_unique _ _ ?_ (by simp) ?_
        · exact (List.perm_insertionSort rowGe _).mem_iff.mpr h2
        · intro y hy hr
          have hy2 : y ∈ cleanStep2 (cleanStep1 l.enum) :=
            (List.perm_insertionSort rowGe _).mem_iff.mp hy
          exact huniqRow y (mem_cleanStep1_subset (mem_cleanStep2_subset hy2)) hr
    have hclean : x ∈ clean_rows l.enum :=
      (List.perm_insertionSort rowGe _).mem_iff.mpr hstep3
    exact hxs ▸ List.mem_map_of_mem Prod.snd hclean

/-- C1, witness: in a table holding a negative-amount record, the
zero-amount record with the ordinary name "Bob" survives cleaning, and the
surviving negative record is not a zero-amount/Unknown record. -/
theorem c1_amended_witness :
    rBobZero ∈ clean_dataframe dfNegZero
    ∧ ¬(rNegative.award_amount = 0 ∧ hasUnknown rNegative.recipient_name = true) := by
  constructor
  · exact (c1_amended dfNegZero rBobZero).2 (by decide) (by decide) (by decide)
      (by decide) (by decide)
  · exact (c1_amended dfNegZero rBobZero).1 (by decide) rNegative (by decide)

/-! ## Claim C2 -/

/-- C2, counterexample: in the table dfDupBlankMax both records share
award_id "A"; the group's maximum-amount row (amount 100) has a blank
recipient name and is dropped by step 1 before deduplication, so the
surviving row of the group carries amount 50, not the group's maximum. -/
theorem c2_counterexample :
    clean_dataframe dfDupBlankMax = [⟨"A", "Bob", 50, "Ag"⟩]
    ∧ (⟨"A", "", 100, "Ag"⟩ : Rec) ∈ dfDupBlankMax
    ∧ (⟨"A", "", 100, "Ag"⟩ : Rec).award_id = (⟨"A", "Bob", 50, "Ag"⟩ : Rec).award_id
    ∧ (⟨"A", "Bob", 50, "Ag"⟩ : Rec).award_amount
        < (⟨"A", "", 100, "Ag"⟩ : Rec).award_amount := by decide

/-- C2, amended: for every admissible run of the cleaning pipeline — the
default sort is unstable, so the relation quantifies over every descending
permutation the sorts may produce — the award identifiers of the output are
unique; relative to the rows surviving the two drop rules (steps 1 and 2),
rather than all input rows, every output row is a maximum-amount row of its
award_id group; and every surviving award_id keeps a representative.  Which
row survives an exact tie (same award_id and same maximum amount) is not
specified by the program.  The last clauses tie the executable
clean_dataframe to the relation as one admissible run. -/
theorem c2_amended (l : List Rec) (out : List Row) (h : CleanRowsRel l.enum out) :
    (out.map rid).Nodup
    ∧ (∀ x ∈ out, x ∈ survivorsOf l
        ∧ ∀ y ∈ survivorsOf l, rid y = rid x → ramt y ≤ ramt x)
    ∧ (∀ y ∈ survivorsOf l, ∃ x ∈ out, rid x = rid y)
    ∧ CleanRowsRel l.enum (clean_rows l.enum)
    ∧ clean_dataframe l = (clean_rows l.enum).map Prod.snd := by
  obtain ⟨mid, h3, hperm, hsortedOut⟩ := h
  have h3' : cleanStep3Rel (survivorsOf l) mid := h3
  refine ⟨((hperm.map rid).nodup_iff).mpr (cleanStep3Rel_ids_nodup h3'), ?_, ?_,
    cleanRowsRel_self l.enum, rfl⟩
  · intro x hx
    have hxmid : x ∈ mid := hperm.mem_iff.mp hx
    unfold cleanStep3Rel at h3'
    split at h3'
    case isTrue hnd =>
      subst h3'
      refine ⟨hxmid, ?_⟩
      intro y hy hr
      rw [List.inj_on_of_nodup_map hnd hy hxmid hr]
    case isFalse hnd =>
      obtain ⟨L, ⟨hpermL, hsortL⟩, hmid⟩ := h3'
      subst hmid
      have hxL : x ∈ L := ddf_subset _ _ hxmid
      refine ⟨hpermL.mem_iff.mp hxL, ?_⟩
      rcases ddf_first_decomp _ _ hxmid with ⟨L1, L2, hdec, hfree⟩
      intro y hy hr
      have hyL : y ∈ L := hpermL.mem_iff.mpr hy
      rw [hdec] at hyL
      rcases List.mem_append.mp hyL with hy1 | hy2
      · exact absurd hr (hfree y hy1)
      · rcases List.mem_cons.mp hy2 with rfl | hy2
        · exact le_refl _
        · have hpw : (L1 ++ x :: L2).Pairwise rowGe := hdec ▸ hsortL
          exact (List.pairwise_cons.mp (List.pairwise_append.mp hpw).2.1).1 y hy2
  · intro y hy
    unfold cleanStep3Rel at h3'
    split at h3'
    case isTrue hnd =>
      subst h3'
      exact ⟨y, hperm.mem_iff.mpr hy, rfl⟩
    case isFalse hnd =>
      obtain ⟨L, ⟨hpermL, hsortL⟩, hmid⟩ := h3'
      subst hmid
      have hyL : y ∈ L := hpermL.mem_iff.mpr hy
      rcases ddf_covers _ _ hyL (List.not_mem_nil _) with ⟨x, hxm, hxr⟩
      exact ⟨x, hperm.mem_iff.mpr hxm, hxr⟩

/-- C2, witness: the executable model is one admissible run on the
exact-tie table dfTie; its output ids are unique and its output row xTie is
a surviving row of the table. -/
theorem c2_amended_witness :
    ((clean_rows dfTie.enum).map rid).Nodup
    ∧ xTie ∈ survivorsOf dfTie := by
  refine ⟨(c2_amended dfTie (clean_rows dfTie.enum) (cleanRowsRel_self dfTie.enum)).1, ?_⟩
  exact ((c2_amended dfTie (clean_rows dfTie.enum) (cleanRowsRel_self dfTie.enum)).2.1
    xTie (by decide)).1

/-! ## Claim C4 -/

/-- C4, counterexample: on a two-record table with distinct award ids and
equal amounts, one admissible run of clean_dataframe returns the table
unchanged, while an admissible second run on that output returns the two
records in the opposite order — the final sort is the unstable default, so
running the Cleaner on its own output need not reproduce the row order of
tied amounts, refuting "same order". -/
theorem c4_counterexample :
    CleanDF dfTwoTied dfTwoTied
    ∧ CleanDF dfTwoTied [⟨"TB", "b", 5, "Ag"⟩, ⟨"TA", "a", 5, "Ag"⟩]
    ∧ ([⟨"TB", "b", 5, "Ag"⟩, ⟨"TA", "a", 5, "Ag"⟩] : List Rec) ≠ dfTwoTied :=
  ⟨⟨dfTwoTied.enum,
      ⟨cleanStep3 (cleanStep2 (cleanStep1 dfTwoTied.enum)),
        cleanStep3Rel_self _, by decide, by decide⟩, by decide⟩,
    ⟨[(1, ⟨"TB", "b", 5, "Ag"⟩), (0, ⟨"TA", "a", 5, "Ag"⟩)],
      ⟨cleanStep3 (cleanStep2 (cleanStep1 dfTwoTied.enum)),
        cleanStep3Rel_self _, by decide, by decide⟩, by decide⟩,
    by decide⟩

/-- C4, amended: for every admissible first run of the Cleaner and every
admissible second run on its output, the second output is a permutation of
the first (same rows, same values) and is still sorted descending by
amount; and whenever the amounts in the first output are pairwise distinct
— so that no unstable tie order is involved — the second output is exactly
the first (same rows, same values, same order). -/
theorem c4_amended (l out1 out2 : List Rec)
    (h1 : CleanDF l out1) (h2 : CleanDF out1 out2) :
    out2.Perm out1
    ∧ out2.Pairwise (fun a b => b.award_amount ≤ a.award_amount)
    ∧ ((out1.map (fun r => r.award_amount)).Nodup → out2 = out1) := by
  obtain ⟨R1, hR1, hout1⟩ := h1
  obtain ⟨hsub1, hnd1, hsort1⟩ := cleanRowsRel_props hR1
  have hmem1 : ∀ r ∈ out1, ∃ z ∈ R1, z.2 = r := by
    intro r hr
    rw [hout1] at hr
    exact List.mem_map.mp hr
  have hname1 : ∀ r ∈ out1, (pyStrip r.recipient_name == "") = false := by
    intro r hr
    obtain ⟨z, hz, hzr⟩ := hmem1 r hr
    have hz1 : z ∈ cleanStep1 l.enum := mem_cleanStep2_subset (hsub1 z hz)
    have hzn := List.of_mem_filter hz1
    rw [hzr] at hzn
    simpa using hzn
  have hids1 : (out1.map (fun r => r.award_id)).Nodup := by
    have hh : out1.map (fun r => r.award_id) = R1.map rid := by
      rw [hout1, List.map_map]
      rfl
    rw [hh]
    exact hnd1
  have hsortRec1 : out1.Pairwise (fun a b => b.award_amount ≤ a.award_amount) := by
    rw [hout1]
    exact hsort1.map Prod.snd (fun a b hab => hab)
  obtain ⟨R2, hR2, hout2⟩ := h2
  obtain ⟨mid2, h32, hperm2, hsort2⟩ := hR2
  have henum1 : ∀ x : Row, x ∈ out1.enum → x.2 ∈ out1 := by
    intro x hx
    have hm : x.2 ∈ (out1.enum).map Prod.snd := List.mem_map_of_mem Prod.snd hx
    rwa [List.enum_map_snd] at hm
  have hstep1 : cleanStep1 out1.enum = out1.enum := by
    apply List.filter_eq_self.mpr
    intro x hx
    have hn := hname1 x.2 (henum1 x hx)
    simp [hn]
  have hstep2 : cleanStep2 out1.enum = out1.enum := by
    unfold cleanStep2
    split
    case isTrue hneg =>
      apply List.filter_eq_self.mpr
      intro x hx
      rcases List.any_eq_true.mp hneg with ⟨w, hw, hwneg⟩
      obtain ⟨zw, hzw, hzwx⟩ := hmem1 w.2 (henum1 w hw)
      have hzwneg : zw.2.award_amount < 0 := by
        rw [hzwx]
        exact of_decide_eq_true hwneg
      have hneg1 : negPresent (cleanStep1 l.enum) = true :=
        negPresent_of_mem (mem_cleanStep2_subset (hsub1 zw hzw)) hzwneg
      obtain ⟨z, hz, hzx⟩ := hmem1 x.2 (henum1 x hx)
      have hzu := mem_cleanStep2_zeroUnknown hneg1 (hsub1 z hz)
      have hzux : zeroUnknown x = false := (zeroUnknown_eq_of_snd hzx.symm).trans hzu
      simp [hzux]
    case isFalse => rfl
  have hnd_enum : ((out1.enum).map rid).Nodup := by
    have hh : (out1.enum).map rid = out1.map (fun r => r.award_id) := by
      have h2' : (out1.enum).map rid
          = ((out1.enum).map Prod.snd).map (fun r => r.award_id) := by
        rw [List.map_map]
        rfl
      rw [h2', List.enum_map_snd]
    rw [hh]
    exact hids1
  have hmid2 : mid2 = out1.enum := by
    have e12 : cleanStep2 (cleanStep1 out1.enum) = out1.enum := by
      rw [hstep1, hstep2]
    rw [e12] at h32
    unfold cleanStep3Rel at h32
    rw [if_pos hnd_enum] at h32
    exact h32
  rw [hmid2] at hperm2
  have hperm21 : out2.Perm out1 := by
    have hp := hperm2.map Prod.snd
    rw [List.enum_map_snd] at hp
    rw [hout2]
    exact hp
  have hsortRec2 : out2.Pairwise (fun a b => b.award_amount ≤ a.award_amount) := by
    rw [hout2]
    exact hsort2.map Prod.snd (fun a b hab => hab)
  refine ⟨hperm21, hsortRec2, ?_⟩
  intro hndAmt
  have hndAmt2 : (out2.map (fun r => r.award_amount)).Nodup :=
    ((hperm21.map (fun r => r.award_amount)).nodup_iff).mpr hndAmt
  have hstrict1 := pairwise_lt_of_le_nodup hsortRec1 hndAmt
  have hstrict2 := pairwise_lt_of_le_nodup hsortRec2 hndAmt2
  haveI : IsAntisymm Rec (fun a b => b.award_amount < a.award_amount) :=
    ⟨fun a b hab hba => absurd (lt_trans hab hba) (lt_irrefl _)⟩
  exact List.eq_of_perm_of_sorted hperm21 hstrict2 hstrict1

/-- C4, witness: two executable runs (each one admissible) on a concrete
table whose cleaned amounts are distinct return the same list exactly. -/
theorem c4_amended_witness :
    clean_dataframe (clean_dataframe dfNegZero) = clean_dataframe dfNegZero :=
  (c4_amended dfNegZero (clean_dataframe dfNegZero)
    (clean_dataframe (clean_dataframe dfNegZero))
    (clean_dataframe_admissible dfNegZero)
    (clean_dataframe_admissible (clean_dataframe dfNegZero))).2.2 (by decide)

/-! ## Claim C6 -/

/-- C6, counterexample: a table with zero rows (and the fixed schema, so
every required column present) is rejected by validate_processed_data even
though its blank-name count plus duplicate count (zero) does not exceed
10 percent of its row count (zero) — the claimed biconditional fails at
the empty table. -/
theorem c6_counterexample :
    validate_processed_data ([] : List Rec) = false
    ∧ 10 * (blankNameCount ([] : List Rec) + dupIdCount ([] : List Rec))
        ≤ ([] : List Rec).length := by decide

/-- C6, amended: for tables with the required columns,
validate_processed_data accepts exactly the non-empty tables in which
blank-recipient-name count plus duplicate-award-id count is at most
10 percent of the row count; every other detected issue (non-positive
amounts, amounts above 1e12, blank agencies) never affects the verdict,
which mentions only those two counts.  A table with 15 percent blank
recipient names is rejected. -/
theorem c6_amended :
    (∀ l : List Rec, validate_processed_data l = true ↔
      (l ≠ [] ∧ 10 * (blankNameCount l + dupIdCount l) ≤ l.length))
    ∧ validate_processed_data scenario15 = false := by
  constructor
  · intro l
    unfold validate_processed_data
    split
    case isTrue hem =>
      simp [List.isEmpty_iff.mp hem]
    case isFalse hem =>
      have hne : l ≠ [] := fun hc => hem (by simp [hc])
      split
      case isTrue hiss =>
        split
        case isTrue hlt => simp [hne]; omega
        case isFalse hlt => simp [hne]; omega
      case isFalse hiss =>
        push_neg at hiss
        simp [hne]
        omega
  · decide

/-- C6, witness: the amended acceptance rule applied to a clean one-record
table yields acceptance. -/
theorem c6_amended_witness : validate_processed_data [sampleRec] = true :=
  (c6_amended.1 [sampleRec]).mpr (by decide)

/-! ## Claim C7 -/

set_option maxHeartbeats 1600000 in
/-- C7: save_data reports success only if the backup step ran; the backup
step runs only if every write succeeded and every integrity check of the
chosen format passed; and whenever some performed integrity check fails,
save_data returns failure without ever reaching backup creation or
rotation. -/
theorem c7_integrity_gates_backup (df : List Rec) (fmt : String) (env : SaveEnv) :
    ((save_data df fmt env).ok = true → (save_data df fmt env).backupRan = true)
    ∧ ((save_data df fmt env).backupRan = true → integrityAllOk fmt env = true)
    ∧ (integrityAllOk fmt env = false →
        (save_data df fmt env).ok = false ∧ (save_data df fmt env).backupRan = false) := by
  have hmain : (save_data df fmt env).backupRan = true → integrityAllOk fmt env = true := by
    unfold save_data
    split_ifs <;> intro hb
    all_goals try exact hb.elim
    unfold integrityAllOk
    cases hcs : csvSelected fmt <;> cases hjs : jsonSelected fmt <;> simp_all
  have hok : (save_data df fmt env).ok = true → (save_data df fmt env).backupRan = true := by
    unfold save_data
    split_ifs <;> intro hb <;> first
      | rfl
      | exact hb.elim
  refine ⟨hok, hmain, ?_⟩
  intro hbad
  constructor
  · cases hres : (save_data df fmt env).ok with
    | false => rfl
    | true => exact absurd (hmain (hok hres)) (by simp [hbad])
  · cases hres : (save_data df fmt env).backupRan with
    | false => rfl
    | true => exact absurd (hmain hres) (by simp [hbad])

/-- C7, witness: with the timestamped JSON integrity check failing, the
save reports failure and the backup step is never reached. -/
theorem c7_witness :
    (save_data [sampleRec] "both" envBadJsonTs).ok = false
    ∧ (save_data [sampleRec] "both" envBadJsonTs).backupRan = false :=
  (c7_integrity_gates_backup [sampleRec] "both" envBadJsonTs).2.2 (by decide)

/-! ## Claim C9 -/

/-- C9: validate_api_response returns false on every non-mapping input, on
every mapping without a "results" key and on every mapping whose "results"
is not a sequence; it returns true on an empty "results" sequence; and for
a non-empty "results" sequence it returns true exactly when the first
element contains at least one of the expected identity field names (as a
mapping key, sequence element or substring — a first element supporting no
containment test makes the check raise instead, and then nothing is
returned). -/
theorem c9_validate_api_response (resp : JVal) :
    ((∀ kvs, resp ≠ JVal.jobj kvs) → validate_api_response resp = Except.ok false)
    ∧ (∀ kvs, resp = JVal.jobj kvs → jLookup kvs "results" = none →
        validate_api_response resp = Except.ok false)
    ∧ (∀ kvs r, resp = JVal.jobj kvs → jLookup kvs "results" = some r →
        (∀ xs, r ≠ JVal.jarr xs) → validate_api_response resp = Except.ok false)
    ∧ (∀ kvs, resp = JVal.jobj kvs → jLookup kvs "results" = some (JVal.jarr []) →
        validate_api_response resp = Except.ok true)
    ∧ (∀ kvs x xs, resp = JVal.jobj kvs →
        jLookup kvs "results" = some (JVal.jarr (x :: xs)) →
        (validate_api_response resp = Except.ok true ↔
          basicFields.any (jContainsName x) = true)) := by
  refine ⟨?_, ?_, ?_, ?_, ?_⟩
  · intro hno
    cases resp with
    | jobj kvs => exact absurd rfl (hno kvs)
    | jnull => rfl
    | jbool b => rfl
    | jnum q => rfl
    | jstr s => rfl
    | jarr xs => rfl
  · intro kvs hresp hlook
    subst hresp
    show validateResults (jLookup kvs "results") = Except.ok false
    rw [hlook]
    rfl
  · intro kvs r hresp hlook hnarr
    subst hresp
    show validateResults (jLookup kvs "results") = Except.ok false
    rw [hlook]
    cases r with
    | jarr xs => exact absurd rfl (hnarr xs)
    | jnull => rfl
    | jbool b => rfl
    | jnum q => rfl
    | jstr s => rfl
    | jobj kvs2 => rfl
  · intro kvs hresp hlook
    subst hresp
    show validateResults (jLookup kvs "results") = Except.ok true
    rw [hlook]
    rfl
  · intro kvs x xs hresp hlook
    subst hresp
    show validateResults (jLookup kvs "results") = Except.ok true ↔ _
    rw [hlook]
    cases x with
    | jobj kvs2 =>
        simp only [validateResults, pyInJ, basicFields, jContainsName, List.any_cons,
          List.any_nil, Except.ok.injEq, Bool.or_false, Bool.or_assoc]
    | jarr ys =>
        simp only [validateResults, pyInJ, basicFields, jContainsName, List.any_cons,
          List.any_nil, Except.ok.injEq, Bool.or_false, Bool.or_assoc]
    | jstr t =>
        simp only [validateResults, pyInJ, basicFields, jContainsName, List.any_cons,
          List.any_nil, Except.ok.injEq, Bool.or_false, Bool.or_assoc]
    | jnull => simp [validateResults, pyInJ, jContainsName, basicFields]
    | jbool b => simp [validateResults, pyInJ, jContainsName, basicFields]
    | jnum q => simp [validateResults, pyInJ, jContainsName, basicFields]

/-- C9, witness: a response whose first result record carries the
"Award ID" field validates successfully. -/
theorem c9_witness : validate_api_response respOkFirst = Except.ok true :=
  ((c9_validate_api_response respOkFirst).2.2.2.2
    [("results", JVal.jarr [JVal.jobj [("Award ID", JVal.jstr "x")]])]
    (JVal.jobj [("Award ID", JVal.jstr "x")]) [] rfl rfl).mpr (by decide)

/-! ## Helper lemmas: the pagination loop -/

theorem fetchGo_succ_eq {α : Type} (oracle : Nat → Nat → Option (List α))
    (t fuel reqNum : Nat) (acc : List α) :
    fetchGo oracle t (fuel + 1) reqNum acc =
      if min 100 ((t : Int) - acc.length) ≤ 0 then ([], acc)
      else
        match oracle (reqNum + 1) (min 100 ((t : Int) - acc.length)).toNat with
        | some rs =>
            if rs.isEmpty then
              ((reqNum + 1, (min 100 ((t : Int) - acc.length)).toNat) ::
                  (fetchGo oracle t fuel (reqNum + 1) acc).1,
                (fetchGo oracle t fuel (reqNum + 1) acc).2)
            else if rs.length < (min 100 ((t : Int) - acc.length)).toNat then
              ([(reqNum + 1, (min 100 ((t : Int) - acc.length)).toNat)], acc ++ rs)
            else
              ((reqNum + 1, (min 100 ((t : Int) - acc.length)).toNat) ::
                  (fetchGo oracle t fuel (reqNum + 1) (acc ++ rs)).1,
                (fetchGo oracle t fuel (reqNum + 1) (acc ++ rs)).2)
        | none =>
            ((reqNum + 1, (min 100 ((t : Int) - acc.length)).toNat) ::
                (fetchGo oracle t fuel (reqNum + 1) acc).1,
              (fetchGo oracle t fuel (reqNum + 1) acc).2) := rfl

theorem fetchGo_pages_gt {α : Type} (oracle : Nat → Nat → Option (List α)) (t : Nat) :
    ∀ (fuel r0 : Nat) (acc : List α) (p l : Nat),
      (p, l) ∈ (fetchGo oracle t fuel r0 acc).1 → r0 < p := by
  intro fuel
  induction fuel with
  | zero =>
      intro r0 acc p l h
      simp [fetchGo] at h
  | succ n ih =>
      intro r0 acc p l h
      rw [fetchGo_succ_eq] at h
      by_cases hc : min 100 ((t : Int) - acc.length) ≤ 0
      · rw [if_pos hc] at h
        simp at h
      · rw [if_neg hc] at h
        cases ho : oracle (r0 + 1) (min 100 ((t : Int) - acc.length)).toNat with
        | none =>
            rw [ho] at h
            dsimp only at h
            rcases List.mem_cons.mp h with h | h
            · rcases Prod.mk.injEq _ _ _ _ ▸ h with ⟨h1, _⟩
              omega
            · have := ih (r0 + 1) acc p l h
              omega
        | some rs =>
            rw [ho] at h
            dsimp only at h
            by_cases he : rs.isEmpty
            · rw [if_pos he] at h
              rcases List.mem_cons.mp h with h | h
              · rcases Prod.mk.injEq _ _ _ _ ▸ h with ⟨h1, _⟩
                omega
              · have := ih (r0 + 1) acc p l h
                omega
            · rw [if_neg he] at h
              by_cases hs : rs.length < (min 100 ((t : Int) - acc.length)).toNat
              · rw [if_pos hs] at h
                rcases List.mem_singleton.mp h with h
                rcases Prod.mk.injEq _ _ _ _ ▸ h with ⟨h1, _⟩
                omega
              · rw [if_neg hs] at h
                rcases List.mem_cons.mp h with h | h
                · rcases Prod.mk.injEq _ _ _ _ ▸ h with ⟨h1, _⟩
                  omega
                · have := ih (r0 + 1) (acc ++ rs) p l h
                  omega

theorem fetchGo_head_mem {α : Type} (oracle : Nat → Nat → Option (List α)) (t : Nat)
    (fuel r0 : Nat) (acc : List α) (hf : 0 < fuel)
    (hc : ¬ min 100 ((t : Int) - acc.length) ≤ 0) :
    (r0 + 1, (min 100 ((t : Int) - acc.length)).toNat) ∈ (fetchGo oracle t fuel r0 acc).1 := by
  cases fuel with
  | zero => omega
  | succ n =>
      rw [fetchGo_succ_eq, if_neg hc]
      cases ho : oracle (r0 + 1) (min 100 ((t : Int) - acc.length)).toNat with
      | none =>
          dsimp only
          exact List.mem_cons_self _ _
      | some rs =>
          dsimp only
          by_cases he : rs.isEmpty
          · rw [if_pos he]
            exact List.mem_cons_self _ _
          · rw [if_neg he]
            by_cases hs : rs.length < (min 100 ((t : Int) - acc.length)).toNat
            · rw [if_pos hs]
              exact List.mem_singleton.mpr rfl
            · rw [if_neg hs]
              exact List.mem_cons_self _ _

theorem fetchGo_next {α : Type} (oracle : Nat → Nat → Option (List α)) (t : Nat) :
    ∀ (fuel r0 : Nat) (acc : List α) (k lim : Nat),
      (k, lim) ∈ (fetchGo oracle t fuel r0 acc).1 →
      (oracle k lim = none ∨ oracle k lim = some []) →
      k - r0 < fuel →
      (k + 1, lim) ∈ (fetchGo oracle t fuel r0 acc).1 := by
  intro fuel
  induction fuel with
  | zero =>
      intro r0 acc k lim h
      simp [fetchGo] at h
  | succ n ih =>
      intro r0 acc k lim h hfail hfuel
      rw [fetchGo_succ_eq] at h ⊢
      by_cases hc : min 100 ((t : Int) - acc.length) ≤ 0
      · rw [if_pos hc] at h
        simp at h
      · rw [if_neg hc] at h ⊢
        cases ho : oracle (r0 + 1) (min 100 ((t : Int) - acc.length)).toNat with
        | none =>
            rw [ho] at h
            dsimp only at h ⊢
            rcases List.mem_cons.mp h with h | h
            · rcases Prod.mk.injEq _ _ _ _ ▸ h with ⟨h1, h2⟩
              subst h1
              subst h2
              have hn : 0 < n := by omega
              exact List.mem_cons_of_mem _ (fetchGo_head_mem oracle t n (r0 + 1) acc hn hc)
            · have hgt := fetchGo_pages_gt oracle t n (r0 + 1) acc k lim h
              exact List.mem_cons_of_mem _ (ih (r0 + 1) acc k lim h hfail (by omega))
        | some rs =>
            rw [ho] at h
            dsimp only at h ⊢
            by_cases he : rs.isEmpty
            · rw [if_pos he] at h ⊢
              rcases List.mem_cons.mp h with h | h
              · rcases Prod.mk.injEq _ _ _ _ ▸ h with ⟨h1, h2⟩
                subst h1
                subst h2
                have hn : 0 < n := by omega
                exact List.mem_cons_of_mem _ (fetchGo_head_mem oracle t n (r0 + 1) acc hn hc)
              · have hgt := fetchGo_pages_gt oracle t n (r0 + 1) acc k lim h
                exact List.mem_cons_of_mem _ (ih (r0 + 1) acc k lim h hfail (by omega))
            · rw [if_neg he] at h ⊢
              have hrs : rs ≠ [] := fun hn => he (by simp [hn])
              by_cases hs : rs.length < (min 100 ((t : Int) - acc.length)).toNat
              · rw [if_pos hs] at h
                rcases List.mem_singleton.mp h with h
                rcases Prod.mk.injEq _ _ _ _ ▸ h with ⟨h1, h2⟩
                subst h1
                subst h2
                rcases hfail with hf1 | hf1
                · rw [ho] at hf1
                  exact absurd hf1 (by simp)
                · rw [ho] at hf1
                  exact absurd (Option.some.inj hf1) hrs
              · rw [if_neg hs] at h ⊢
                rcases List.mem_cons.mp h with h | h
                · rcases Prod.mk.injEq _ _ _ _ ▸ h with ⟨h1, h2⟩
                  subst h1
                  subst h2
                  rcases hfail with hf1 | hf1
                  · rw [ho] at hf1
                    exact absurd hf1 (by simp)
                  · rw [ho] at hf1
                    exact absurd (Option.some.inj hf1) hrs
                · have hgt := fetchGo_pages_gt oracle t n (r0 + 1) (acc ++ rs) k lim h
                  exact List.mem_cons_of_mem _
                    (ih (r0 + 1) (acc ++ rs) k lim h hfail (by omega))

theorem ceil_bounds (t : Nat) :
    t ≤ 100 * ((t + 99) / 100) ∧ 100 * ((t + 99) / 100) ≤ t + 99 := by
  have h1 := Nat.div_add_mod (t + 99) 100
  have h2 : (t + 99) % 100 < 100 := Nat.mod_lt _ (by omega)
  omega

theorem fetchGo_full {α : Type} (oracle : Nat → Nat → Option (List α))
    (hO : ∀ p n, ∃ rs : List α, oracle p n = some rs ∧ rs.length = n) (t : Nat) :
    ∀ (m r0 : Nat) (acc : List α), acc.length = 100 * r0 → 100 * r0 < t →
      m = (t + 99) / 100 - r0 →
      (fetchGo oracle t m r0 acc).1
        = (List.range m).map (fun i => (r0 + i + 1, min 100 (t - 100 * (r0 + i)))) := by
  intro m
  induction m with
  | zero =>
      intro r0 acc hacc hlt hm
      have hcb := ceil_bounds t
      omega
  | succ m' ih =>
      intro r0 acc hacc hlt hm
      have hcb := ceil_bounds t
      rw [fetchGo_succ_eq]
      have hpos : ¬ min 100 ((t : Int) - acc.length) ≤ 0 := by
        rw [hacc]
        omega
      rw [if_neg hpos]
      have hlim : (min 100 ((t : Int) - acc.length)).toNat = min 100 (t - 100 * r0) := by
        rw [hacc]
        omega
      obtain ⟨rs, hors, hlen⟩ := hO (r0 + 1) ((min 100 ((t : Int) - acc.length)).toNat)
      rw [hors]
      dsimp only
      have hlpos : 0 < rs.length := by
        rw [hlen, hlim]
        omega
      have hne : ¬ rs.isEmpty = true := by
        cases rs with
        | nil => simp at hlpos
        | cons a as => simp
      rw [if_neg hne]
      have hnshort : ¬ rs.length < (min 100 ((t : Int) - acc.length)).toNat := by
        rw [hlen]
        omega
      rw [if_neg hnshort]
      by_cases hlast : 100 * (r0 + 1) < t
      · have hacc' : (acc ++ rs).length = 100 * (r0 + 1) := by
          rw [List.length_append, hacc, hlen, hlim]
          omega
        have hm' : m' = (t + 99) / 100 - (r0 + 1) := by omega
        rw [ih (r0 + 1) (acc ++ rs) hacc' hlast hm']
        dsimp only
        rw [List.range_succ_eq_map, List.map_cons, List.map_map]
        congr 1
        · simp [hlim]
        · apply List.map_congr_left
          intro i hi
          have h1 : r0 + 1 + i = r0 + (i + 1) := by omega
          simp [Function.comp, h1]
      · have hm'0 : m' = 0 := by omega
        subst hm'0
        simp [fetchGo, hlim, List.range_succ_eq_map]

/-! ## Claim C3 -/

/-- C3: a page request that fails — transport error, non-200 status,
malformed or validation-failing response (all absorbed into a None batch
by fetch_spending_data_with_page) or an empty results list — never aborts
the run: whenever page k was requested with some limit, failed, and was
not the last planned request, page k+1 is requested with the same limit.
No consecutive-failure cap exists in the code, so this holds
unconditionally. -/
theorem c3_failed_page_skipped {α : Type} (oracle : Nat → Nat → Option (List α))
    (t k lim : Nat)
    (hmem : (k, lim) ∈ (fetch_spending_data_with_pagination oracle t).1)
    (hfail : oracle k lim = none ∨ oracle k lim = some [])
    (hlt : k < (t + 99) / 100) :
    (k + 1, lim) ∈ (fetch_spending_data_with_pagination oracle t).1 := by
  have hm : (k, lim) ∈ (fetchGo oracle t ((t + 99) / 100) 0 []).1 := hmem
  exact fetchGo_next oracle t ((t + 99) / 100) 0 [] k lim hm hfail (by omega)

/-- C3, witness: in a 250-record run in which page 1 fails, page 2 is
still requested with the same limit. -/
theorem c3_witness :
    ((2 : Nat), (100 : Nat)) ∈ (fetch_spending_data_with_pagination noDataOracle 250).1 :=
  c3_failed_page_skipped noDataOracle 250 1 100 (by decide) (Or.inl rfl) (by decide)

/-! ## Claim C5 -/

/-- C5: when every page returns exactly the number of records requested,
the paginated fetcher issues exactly ceil(t / 100) requests, the i-th
(0-based) asking for min(100, t - 100 * i) records — the amount still
missing, capped at the API page maximum. -/
theorem c5_request_plan {α : Type} (oracle : Nat → Nat → Option (List α))
    (hO : ∀ p n, ∃ rs : List α, oracle p n = some rs ∧ rs.length = n)
    (t : Nat) (ht : 0 < t) :
    (fetch_spending_data_with_pagination oracle t).1
        = (List.range ((t + 99) / 100)).map (fun i => (i + 1, min 100 (t - 100 * i)))
    ∧ ((fetch_spending_data_with_pagination oracle t).1).length = (t + 99) / 100 := by
  have h := fetchGo_full oracle hO t ((t + 99) / 100) 0 [] (by simp) (by omega) (by omega)
  have hproj : (fetch_spending_data_with_pagination oracle t).1
      = (fetchGo oracle t ((t + 99) / 100) 0 []).1 := rfl
  constructor
  · rw [hproj, h]
    apply List.map_congr_left
    intro i hi
    simp
  · rw [hproj, h]
    simp

/-- C5, witness: a target of 250 records issues exactly the three requests
(page 1, 100), (page 2, 100), (page 3, 50) when every page is full. -/
theorem c5_request_plan_witness :
    (fetch_spending_data_with_pagination fullRangeOracle 250).1
      = [(1, 100), (2, 100), (3, 50)] := by
  have h := (c5_request_plan fullRangeOracle
    (fun p n => ⟨List.range n, rfl, List.length_range n⟩) 250 (by decide)).1
  rw [h]
  decide

/-! ## Claim C8 -/

theorem convertVal_err {v fb : PyVal} {ct : CType} {x : PyVal}
    (h : convertVal v fb ct = (x, true)) : x = fb := by
  cases ct with
  | cstr => simp [convertVal] at h
  | cfloat =>
      simp only [convertVal] at h
      split at h
      · simp at h
      · split at h
        · simp at h
        · rcases Prod.mk.injEq _ _ _ _ ▸ h with ⟨h1, _⟩
          exact h1.symm
  | cint =>
      simp only [convertVal] at h
      split at h
      · simp at h
      · split at h
        · simp at h
        · rcases Prod.mk.injEq _ _ _ _ ▸ h with ⟨h1, _⟩
          exact h1.symm
  | cother => simp [convertVal] at h

/-- C8: safe_extract never escapes to its caller (it is a total function
into value-and-tally pairs): a present null or empty-string value returns
the declared fallback with no tally; a missing field returns the fallback
(every fallback declared at the call sites is conversion-stable, witness
fbStable); whenever anything is tallied, the tally is exactly the field
name and the result is the fallback; string conversion trims surrounding
whitespace; and the scenario record with Award ID "X1", Recipient Name
"Acme" and Award Amount "1000.50" extracts to award_id "X1",
recipient_name "Acme", award_amount 1000.50 (the rational 2001/2, written
decValue 1000 50 2) with an empty error tally. -/
theorem c8_safe_extract (item : RawRec) (field : String) (fb : PyVal) (s : String) :
    ((lookupRaw item field = some PyVal.vnone
        ∨ lookupRaw item field = some (PyVal.vstr "")) →
      ∀ ct, safe_extract item field fb ct = (fb, []))
    ∧ (lookupRaw item field = none → ∀ ct, fbStable fb ct = true →
        safe_extract item field fb ct = (fb, []))
    ∧ (∀ ct, (safe_extract item field fb ct).2 ≠ [] →
        safe_extract item field fb ct = (fb, [field]))
    ∧ (lookupRaw item field = some (PyVal.vstr s) → s ≠ "" →
        safe_extract item field fb CType.cstr = (PyVal.vstr (pyStrip s), []))
    ∧ process_record 0 rawX1 = (some recX1, []) := by
  refine ⟨?_, ?_, ?_, ?_, ?_⟩
  · intro h ct
    rcases h with h | h <;> simp [safe_extract, h]
  · intro h ct hst
    simp only [safe_extract, h, Option.getD_none]
    by_cases hg : fb = PyVal.vnone ∨ fb = PyVal.vstr ""
    · rw [if_pos hg]
    · rw [if_neg hg]
      have hcv : convertVal fb fb ct = (fb, false) := by
        simp only [fbStable, Bool.or_eq_true, beq_iff_eq] at hst
        tauto
      simp [hcv]
  · intro ct h
    by_cases hg : (lookupRaw item field).getD fb = PyVal.vnone
        ∨ (lookupRaw item field).getD fb = PyVal.vstr ""
    · exfalso
      apply h
      simp [safe_extract, hg]
    · cases hcv : convertVal ((lookupRaw item field).getD fb) fb ct with
      | mk x e =>
          cases e with
          | false =>
              exfalso
              apply h
              simp [safe_extract, hg, hcv]
          | true =>
              have hx : x = fb := convertVal_err hcv
              subst hx
              simp [safe_extract, hg, hcv]
  · intro h hs
    have hg : ¬ (PyVal.vstr s = PyVal.vnone ∨ PyVal.vstr s = PyVal.vstr "") := by
      simp [hs]
    simp [safe_extract, h, hg, convertVal, pyStr]
    exact fun hc => absurd hc hs
  · rfl

/-- C8, witness: a present string value is trimmed of surrounding
whitespace and tallies nothing. -/
theorem c8_safe_extract_witness :
    safe_extract [("Recipient Name", PyVal.vstr "  Acme  ")] "Recipient Name"
        (PyVal.vstr "Unknown Recipient") CType.cstr
      = (PyVal.vstr (pyStrip "  Acme  "), []) :=
  (c8_safe_extract [("Recipient Name", PyVal.vstr "  Acme  ")] "Recipient Name"
    (PyVal.vstr "Unknown Recipient") "  Acme  ").2.2.2.1 (by decide) (by decide)

/-! ## Claim C10 -/

/-- C10: called on an empty table, save_data returns failure before
touching the file system: no file is written, no backup is created or
rotated, in every environment and for every save format. -/
theorem c10_empty_save (fmt : String) (env : SaveEnv) :
    save_data [] fmt env = ⟨false, [], false⟩ := by
  simp [save_data]

/-- C10, witness: the empty-table save at a concrete environment. -/
theorem c10_empty_save_witness :
    save_data [] "both" envAllGood = ⟨false, [], false⟩ :=
  c10_empty_save "both" envAllGood

end FedSpend
